import Mathlib

/-!
Verification of the dsa-sensei question-answering tutor.

The repository ships the React chat page `frontend/src/App.tsx` together with a
README describing the FastAPI backend (`app/services/rag_service.py`,
`app/db/ingest_data.py`), whose sources are not present here.  The frontend is
embedded directly from `App.tsx`.  The backend pipeline (chunker, retriever
with filesystem fallback, vector index, ingestion, answer composer) is
modelled from the specification, as stated on each definition.

Conventions of the embedding: document and answer text is a `List Char`;
floating-point relevance scores and embedding coordinates are modelled over
the integers; effectful calls to external providers are modelled by passing
the provider as a function, and fallible operations return `Except`.
-/

namespace DsaSensei

/-! ## Chunker

Modelled from the spec, §4.1: `chunk(text, size, overlap)` splits text into
windows of `size` characters, advancing by `size - overlap` each step; the
last chunk may be shorter and is still emitted; `size` and `overlap` must be
positive integers with `overlap < size`, otherwise the call fails with
`InvalidParameter`. -/

inductive ChunkError where
  | invalidParameter
deriving DecidableEq

/-- Modelled from the spec: the window loop of the chunker.  `fuel` is an
upper bound on the remaining text length, making the recursion structural;
`chunk` always supplies `text.length`, which suffices whenever `step ≥ 1`. -/
def chunkWindows (size step : Nat) : Nat → List Char → List (List Char)
  | _, [] => []
  | 0, rest => [rest]
  | fuel + 1, c :: cs =>
    if cs.length + 1 ≤ size then [c :: cs]
    else (c :: cs).take size :: chunkWindows size step fuel ((c :: cs).drop step)

/-- Modelled from the spec: `chunk(text, size, overlap)`.  Validates the
parameters (`size` and `overlap` positive, `overlap < size`), then emits the
overlapping windows in order. -/
def chunk (text : List Char) (size overlap : Int) : Except ChunkError (List (List Char)) :=
  if 0 < size ∧ 0 < overlap ∧ overlap < size then
    Except.ok (chunkWindows size.toNat (size - overlap).toNat text.length text)
  else Except.error ChunkError.invalidParameter

/-- Reassembly of a chunk sequence: keep the first chunk whole and strip the
leading `overlap` characters of every later chunk, then concatenate. -/
def glue (overlap : Nat) : List (List Char) → List Char
  | [] => []
  | c :: rest => c ++ (rest.map (List.drop overlap)).flatten

/-! ## Corpus store and fallback scanner

Modelled from the spec, §4.5 step 3 and §6: a document is identified by its
file path; the fallback scanner tokenizes the question (lowercase, split on
non-alphanumeric boundaries, drop stopwords and empty tokens), chunks every
document, scores each chunk by query-token overlap plus a fixed bonus when a
query token appears in the document's filename, and returns the top-k chunks,
ties broken by document path then chunk index. -/

structure Document where
  path : List Char
  text : List Char
deriving DecidableEq

/-- Modelled from the spec: the stopword set is left configurable by the spec
(§9); this is the fixed default of the model. -/
def stopwords : List (List Char) :=
  ["the", "a", "an", "is", "of", "to", "and", "in", "on", "with"].map String.toList

/-- Modelled from the spec: lowercase, split on non-alphanumeric boundaries,
drop stopwords and empty tokens. -/
def tokenize (s : List Char) : List (List Char) :=
  ((s.map Char.toLower).splitOnP (fun c => !c.isAlphanum)).filter
    (fun t => !t.isEmpty && !(stopwords.contains t))

/-- The filename component of a document path (text after the last slash). -/
def filename (path : List Char) : List Char :=
  (path.splitOnP (fun c => c == '/')).getLastD []

/-- Modelled from the spec: the filename-match bonus weight is left
configurable by the spec (§9); this is the fixed default of the model. -/
def filenameBonus : Nat := 5

/-- Whether some query token appears in the document's filename. -/
def filenameMatch (qts : List (List Char)) (path : List Char) : Bool :=
  qts.any (fun t => (tokenize (filename path)).contains t)

/-- Number of query tokens that occur among the tokens of a chunk's text. -/
def overlapScore (qts : List (List Char)) (ctext : List Char) : Nat :=
  (qts.filter (fun t => (tokenize ctext).contains t)).length

/-- Modelled from the spec: chunk score = query-token overlap count, plus the
fixed bonus when a query token appears in the document's filename. -/
def chunkScore (qts : List (List Char)) (path ctext : List Char) : Nat :=
  overlapScore qts ctext + (if filenameMatch qts path then filenameBonus else 0)

/-- Chunking configuration used by the fallback scanner and by ingestion
(window size and step; the spec leaves the concrete values configurable). -/
structure ScanConfig where
  size : Nat
  step : Nat
deriving DecidableEq

structure ScoredChunk where
  path : List Char
  idx : Nat
  text : List Char
  score : Nat
deriving DecidableEq

/-- All chunks of one document, scored against the query tokens. -/
def scanDoc (cfg : ScanConfig) (qts : List (List Char)) (d : Document) : List ScoredChunk :=
  (chunkWindows cfg.size cfg.step d.text.length d.text).enum.map
    (fun p => ⟨d.path, p.1, p.2, chunkScore qts d.path p.2⟩)

/-- Ranking order of the fallback scanner: descending score, ties broken by
document path, then by chunk index. -/
def scanRel (a b : ScoredChunk) : Prop :=
  b.score < a.score ∨
    (a.score = b.score ∧ (a.path < b.path ∨ (a.path = b.path ∧ a.idx ≤ b.idx)))

instance : DecidableRel scanRel := fun a b => by unfold scanRel; infer_instance

inductive Provenance where
  | vector
  | filesystem
deriving DecidableEq

structure RetrievedContext where
  text : List Char
  source : List Char
  score : Int
  provenance : Provenance
deriving DecidableEq

/-- Modelled from the spec: the Filesystem Fallback Scanner.  Scores every
chunk of every document against the tokenized question, sorts by descending
score with deterministic tie-breaking, and returns the top-k chunks tagged
with provenance `filesystem`. -/
def fallbackScan (cfg : ScanConfig) (corpus : List Document) (question : List Char)
    (k : Nat) : List RetrievedContext :=
  let qts := tokenize question
  (((corpus.flatMap (scanDoc cfg qts)).insertionSort scanRel).take k).map
    (fun c => ⟨c.text, c.path, (c.score : Int), Provenance.filesystem⟩)

/-! ## Vector index

Modelled from the spec, §4.3: the index stores `(chunk, embedding, metadata)`
records; `query` returns a ranked list (higher score first, ties broken by
insertion order) and fails with `IndexUnavailable` when the index is empty or
unreachable.  Similarity is a monotone relevance score over the stored
vectors, modelled as an integer dot product. -/

inductive IndexError where
  | indexUnavailable
deriving DecidableEq

structure IndexRecord where
  docId : List Char
  chunkIdx : Nat
  text : List Char
  embedding : List Int
deriving DecidableEq

structure VectorIndex where
  records : List IndexRecord
  reachable : Bool
deriving DecidableEq

def dot (a b : List Int) : Int := (List.zipWith (· * ·) a b).sum

structure ScoredRecord where
  pos : Nat
  record : IndexRecord
  score : Int
deriving DecidableEq

/-- Ranking order of the vector index: descending score, ties broken by
insertion position (first-inserted wins). -/
def vecRel (a b : ScoredRecord) : Prop :=
  b.score < a.score ∨ (a.score = b.score ∧ a.pos ≤ b.pos)

instance : DecidableRel vecRel := fun a b => by unfold vecRel; infer_instance

/-! ## Ranking orders are total and transitive -/

instance : IsTotal ScoredChunk scanRel :=
  ⟨by
    intro a b
    rcases lt_trichotomy a.score b.score with h | h | h
    · exact Or.inr (Or.inl h)
    · rcases lt_trichotomy a.path b.path with hp | hp | hp
      · exact Or.inl (Or.inr ⟨h, Or.inl hp⟩)
      · rcases Nat.le_total a.idx b.idx with hi | hi
        · exact Or.inl (Or.inr ⟨h, Or.inr ⟨hp, hi⟩⟩)
        · exact Or.inr (Or.inr ⟨h.symm, Or.inr ⟨hp.symm, hi⟩⟩)
      · exact Or.inr (Or.inr ⟨h.symm, Or.inl hp⟩)
    · exact Or.inl (Or.inl h)⟩

instance : IsTrans ScoredChunk scanRel :=
  ⟨by
    intro a b c hab hbc
    rcases hab with h1 | ⟨e1, t1⟩
    · rcases hbc with h2 | ⟨e2, t2⟩
      · exact Or.inl (h2.trans h1)
      · exact Or.inl (lt_of_eq_of_lt e2.symm h1)
    · rcases hbc with h2 | ⟨e2, t2⟩
      · exact Or.inl (lt_of_lt_of_eq h2 e1.symm)
      · refine Or.inr ⟨e1.trans e2, ?_⟩
        rcases t1 with hp1 | ⟨ep1, hi1⟩
        · rcases t2 with hp2 | ⟨ep2, hi2⟩
          · exact Or.inl (hp1.trans hp2)
          · exact Or.inl (lt_of_lt_of_eq hp1 ep2)
        · rcases t2 with hp2 | ⟨ep2, hi2⟩
          · exact Or.inl (lt_of_eq_of_lt ep1 hp2)
          · exact Or.inr ⟨ep1.trans ep2, hi1.trans hi2⟩⟩

instance : IsTotal ScoredRecord vecRel :=
  ⟨by
    intro a b
    rcases lt_trichotomy a.score b.score with h | h | h
    · exact Or.inr (Or.inl h)
    · rcases Nat.le_total a.pos b.pos with hi | hi
      · exact Or.inl (Or.inr ⟨h, hi⟩)
      · exact Or.inr (Or.inr ⟨h.symm, hi⟩)
    · exact Or.inl (Or.inl h)⟩

instance : IsTrans ScoredRecord vecRel :=
  ⟨by
    intro a b c hab hbc
    rcases hab with h1 | ⟨e1, t1⟩
    · rcases hbc with h2 | ⟨e2, t2⟩
      · exact Or.inl (h2.trans h1)
      · exact Or.inl (lt_of_eq_of_lt e2.symm h1)
    · rcases hbc with h2 | ⟨e2, t2⟩
      · exact Or.inl (lt_of_lt_of_eq h2 e1.symm)
      · exact Or.inr ⟨e1.trans e2, t1.trans t2⟩⟩

/-- Modelled from the spec: `query(vector, k)` on the vector index. -/
def query (idx : VectorIndex) (v : List Int) (k : Nat) :
    Except IndexError (List (IndexRecord × Int)) :=
  if idx.reachable = false ∨ idx.records = [] then Except.error IndexError.indexUnavailable
  else
    Except.ok
      ((((idx.records.enum.map
            (fun p => ScoredRecord.mk p.1 p.2 (dot v p.2.embedding))).insertionSort
          vecRel).take k).map (fun s => (s.record, s.score)))

/-! ## Retriever

Modelled from the spec, §4.5: embed the question, query the vector index for
the top-k records, and fall back to the filesystem scanner when the index
reports `IndexUnavailable` or returns zero records; every returned context is
tagged with its provenance. -/

def retrieve (idx : VectorIndex) (corpus : List Document) (cfg : ScanConfig)
    (embed : List Char → List Int) (question : List Char) (k : Nat) :
    List RetrievedContext :=
  match query idx (embed question) k with
  | Except.ok results =>
      if results.isEmpty then fallbackScan cfg corpus question k
      else results.map (fun r => ⟨r.1.text, r.1.docId, r.2, Provenance.vector⟩)
  | Except.error _ => fallbackScan cfg corpus question k

/-! ## Ingestion pipeline

Modelled from the spec, §4.4 and §3: ingestion chunks each document, embeds
each chunk (an embedding failure skips that chunk and continues), and upserts
into the vector index under the deterministic key `(document id, chunk
index)`.  Batching and sleep throttling only group the embedding calls and
pause between groups; they do not change the record stream, so the model
processes the stream directly (the unlimited `max_chunks = 0` default). -/

def rkey (r : IndexRecord) : List Char × Nat := (r.docId, r.chunkIdx)

/-- Modelled from the spec: upsert of a single record — replaces the record
stored under the same key, or appends when the key is new. -/
def upsertOne (st : List IndexRecord) (r : IndexRecord) : List IndexRecord :=
  if st.any (fun s => rkey s = rkey r) then
    st.map (fun s => if rkey s = rkey r then r else s)
  else st ++ [r]

def upsert (st : List IndexRecord) (rs : List IndexRecord) : List IndexRecord :=
  rs.foldl upsertOne st

/-- The records produced from one document's chunk list, starting at chunk
index `i`; a chunk whose embedding fails is skipped but keeps its index. -/
def recsFrom (embed : List Char → Option (List Int)) (path : List Char) :
    Nat → List (List Char) → List IndexRecord
  | _, [] => []
  | i, c :: cs =>
    match embed c with
    | some v => ⟨path, i, c, v⟩ :: recsFrom embed path (i + 1) cs
    | none => recsFrom embed path (i + 1) cs

/-- The deterministic record stream of one ingestion run over the corpus. -/
def ingestRecords (cfg : ScanConfig) (embed : List Char → Option (List Int))
    (corpus : List Document) : List IndexRecord :=
  corpus.flatMap
    (fun d => recsFrom embed d.path 0 (chunkWindows cfg.size cfg.step d.text.length d.text))

/-- Modelled from the spec: one ingestion run, upserting the corpus's record
stream into the current index state. -/
def ingest (cfg : ScanConfig) (embed : List Char → Option (List Int))
    (corpus : List Document) (st : List IndexRecord) : List IndexRecord :=
  upsert st (ingestRecords cfg embed corpus)

/-! ## Answer composer and orchestrator

Modelled from the spec, §4.6: build a bounded prompt, invoke the Generation
Provider; on success return its text verbatim with provenance `remote`; on
any provider failure (quota, network, timeout) fall back to the deterministic
local template built from the context texts; when no contexts were retrieved
return the fixed "no information available" message; the fallback paths are
tagged `local-fallback` and no exception reaches the caller. -/

inductive GenResult where
  | ok (text : List Char)
  | quotaExceeded
  | networkError
  | timeout
deriving DecidableEq

def genFailed : GenResult → Bool
  | GenResult.ok _ => false
  | GenResult.quotaExceeded => true
  | GenResult.networkError => true
  | GenResult.timeout => true

inductive GenProvenance where
  | remote
  | localFallback
deriving DecidableEq

structure AnswerResult where
  answer : List Char
  contexts : List RetrievedContext
  provenance : GenProvenance
deriving DecidableEq

/-- Modelled from the spec: the context-length cap is left configurable by
the spec (§6); this is the fixed default of the model. -/
def promptCap : Nat := 4000

/-- Modelled from the spec: the bounded prompt — question plus concatenated
context texts, truncated to the maximum total length. -/
def buildPrompt (question : List Char) (ctxs : List RetrievedContext) : List Char :=
  (question ++ '\n' :: (ctxs.map (fun c => c.text)).flatten).take promptCap

def noInfoMessage : List Char :=
  "No information available in your notes.".toList

/-- Modelled from the spec: the deterministic local template, built purely
from the retrieved context texts. -/
def localTemplate (ctxs : List RetrievedContext) : List Char :=
  "Based on your notes: ".toList ++ List.intercalate " | ".toList (ctxs.map (fun c => c.text))

/-- Modelled from the spec: `compose(question, contexts)`, with the
Generation Provider passed as a function from prompt to outcome. -/
def compose (gen : List Char → GenResult) (question : List Char)
    (ctxs : List RetrievedContext) : AnswerResult :=
  if ctxs.isEmpty then ⟨noInfoMessage, ctxs, GenProvenance.localFallback⟩
  else
    match gen (buildPrompt question ctxs) with
    | GenResult.ok t => ⟨t, ctxs, GenProvenance.remote⟩
    | _ => ⟨localTemplate ctxs, ctxs, GenProvenance.localFallback⟩

/-- The infrastructure a single request runs against. -/
structure Env where
  idx : VectorIndex
  corpus : List Document
  cfg : ScanConfig
  embed : List Char → List Int
  gen : List Char → GenResult
  k : Nat

/-- Modelled from the spec: the orchestrator `answer(question)`. -/
def answer (env : Env) (question : List Char) : AnswerResult :=
  compose env.gen question (retrieve env.idx env.corpus env.cfg env.embed question env.k)

/-- Modelled from the spec: the `POST /ask` entry point accepts a `user_id`
but the core takes only the question as input. -/
def askEndpoint (env : Env) (user_id : String) (question : List Char) : AnswerResult :=
  answer env question

/-! ## Chat UI (`frontend/src/App.tsx`)

Embeds the `ask` handler: its effect on the component state (`input`,
`messages`, `loading`, `error`) and the HTTP request it posts, as a function
of the network outcome of `axios.post`. -/

inductive Role where
  | user
  | assistant
deriving DecidableEq

structure Message where
  role : Role
  content : String
deriving DecidableEq

structure UiState where
  input : String
  messages : List Message
  loading : Bool
  error : Option String
deriving DecidableEq

structure AskRequest where
  url : String
  user_id : String
  question : String
deriving DecidableEq

/-- Outcome of the `axios.post` call: a response (whose `data?.answer` may be
absent), or an exception carrying optional `response.data.detail` and
`message` fields. -/
inductive NetOutcome where
  | success (answer : Option String)
  | failure (detail : Option String) (message : Option String)

/-- JavaScript truthiness of an optional string: absent and empty are falsy. -/
def jsTruthy : Option String → Option String
  | none => none
  | some s => if s = "" then none else some s

/-- The error text computed by the catch branch:
`e?.response?.data?.detail || e?.message || 'Request failed'`. -/
def errorText (detail message : Option String) : String :=
  ((jsTruthy detail).orElse (fun _ => jsTruthy message)).getD "Request failed"

/-- The blank-input guard `!input.trim()`: blank iff every character is whitespace. -/
def isBlank (s : String) : Bool := s.toList.all Char.isWhitespace

/-- The `ask` handler of `App.tsx`: returns the state after the handler runs
and the request posted, if any.  A blank input returns immediately; otherwise
the user message is appended and the input cleared, one request is posted
with the constant `user_id` "Charan", and the response or exception is
handled with `loading` reset in the `finally` block. -/
def ask (s : UiState) (net : NetOutcome) : UiState × Option AskRequest :=
  if isBlank s.input then (s, none)
  else
    let userMsg : Message := ⟨Role.user, s.input⟩
    let req : AskRequest := ⟨"http://localhost:8000/ask", "Charan", s.input⟩
    match net with
    | NetOutcome.success ans =>
        (⟨"", s.messages ++ [userMsg, ⟨Role.assistant, ans.getD "No answer."⟩], false, none⟩,
         some req)
    | NetOutcome.failure detail message =>
        (⟨"", s.messages ++ [userMsg], false, some (errorText detail message)⟩, some req)

/-! ## Auxiliary predicates and concrete test data -/

/-- Some record with the key of `r` is stored. -/
def keyMem (st : List IndexRecord) (r : IndexRecord) : Prop :=
  ∃ x ∈ st, rkey x = rkey r

/-- Every stored record with the key of `r` is `r` itself. -/
def keyUniq (st : List IndexRecord) (r : IndexRecord) : Prop :=
  ∀ x ∈ st, rkey x = rkey r → x = r

/-- The test corpus of the spec's fallback scenario: three documents with
identical content, exactly one of them named after the query terms. -/
def demoText : List Char := "binary search halves the range each step".toList

def democorpus : List Document :=
  [⟨"data/notes.txt".toList, demoText⟩,
   ⟨"data/binary_search.txt".toList, demoText⟩,
   ⟨"data/alpha.txt".toList, demoText⟩]

def democfg : ScanConfig := ⟨50, 40⟩

/-- A document long enough for two chunks with equal scores, to exercise the
chunk-index tie-break. -/
def demoText2 : List Char := "binary search. binary search".toList

deriving instance DecidableEq for Except

/-! ## Chunker: losslessness and parameter validation -/

/-- Dropping the overlap from every window and concatenating yields the text
with its first `ov` characters removed, provided the step is positive, the
window size is `step + ov`, and the fuel bounds the text length. -/
theorem chunkWindows_drop_flatten (size step ov : Nat) (hstep : 1 ≤ step)
    (hsum : step + ov = size) :
    ∀ (fuel : Nat) (cs : List Char), cs.length ≤ fuel →
      ((chunkWindows size step fuel cs).map (List.drop ov)).flatten = cs.drop ov := by
  intro fuel
  induction fuel with
  | zero =>
    intro cs hcs
    have : cs = [] := List.eq_nil_of_length_eq_zero (Nat.le_zero.mp hcs)
    subst this
    simp [chunkWindows]
  | succ f ih =>
    intro cs hcs
    cases cs with
    | nil => simp [chunkWindows]
    | cons c cs =>
      by_cases hle : cs.length + 1 ≤ size
      · simp [chunkWindows, hle]
      · have hcs1 : cs.length + 1 ≤ f + 1 := by simpa using hcs
        have hrec : ((c :: cs).drop step).length ≤ f := by
          simp only [List.length_drop, List.length_cons]
          omega
        have hIH := ih ((c :: cs).drop step) hrec
        simp only [chunkWindows, if_neg hle, List.map_cons, List.flatten_cons, hIH,
          List.drop_drop, List.drop_take]
        have hov : ov ≤ size := by omega
        have hlen : size ≤ (c :: cs).length := by
          simp only [List.length_cons]; omega
        calc List.take (size - ov) ((c :: cs).drop ov) ++ (c :: cs).drop (step + ov)
            = List.take step ((c :: cs).drop ov) ++ List.drop step ((c :: cs).drop ov) := by
              rw [List.drop_drop]
              congr 1
              · congr 1
                omega
              · rw [Nat.add_comm]
          _ = (c :: cs).drop ov := List.take_append_drop _ _

/-- C4: for all text and all positive `size`, `overlap` with
`overlap < size`, `chunk` succeeds and is lossless: keeping the first chunk
whole and stripping the `overlap`-character prefix of every later chunk
reconstructs the text exactly (so the final, shorter chunk is emitted and no
trailing content is lost); being a pure function of its arguments, `chunk` is
deterministic. -/
theorem chunk_lossless (text : List Char) (size overlap : Int)
    (hov : 0 < overlap) (hlt : overlap < size) :
    ∃ ws, chunk text size overlap = Except.ok ws ∧ glue overlap.toNat ws = text := by
  have hcond : 0 < size ∧ 0 < overlap ∧ overlap < size := ⟨lt_trans hov hlt, hov, hlt⟩
  refine ⟨chunkWindows size.toNat (size - overlap).toNat text.length text, ?_, ?_⟩
  · simp [chunk, hcond]
  · have hstep : 1 ≤ (size - overlap).toNat := by omega
    have hsum : (size - overlap).toNat + overlap.toNat = size.toNat := by omega
    cases text with
    | nil => simp [chunkWindows, glue]
    | cons c cs =>
      by_cases hle : cs.length + 1 ≤ size.toNat
      · simp [chunkWindows, hle, glue]
      · have hrec : ((c :: cs).drop (size - overlap).toNat).length ≤ cs.length := by
          simp only [List.length_drop, List.length_cons]
          omega
        simp only [List.length_cons, chunkWindows, if_neg hle, glue, List.flatten]
        rw [chunkWindows_drop_flatten size.toNat (size - overlap).toNat overlap.toNat
          hstep hsum cs.length ((c :: cs).drop (size - overlap).toNat) hrec]
        rw [List.drop_drop]
        have : (size - overlap).toNat + overlap.toNat = size.toNat := hsum
        rw [this]
        exact List.take_append_drop _ _

/-- Witness for C4 at `text = "abcdefghi"`, `size = 4`, `overlap = 2`. -/
theorem chunk_lossless_witness :
    ∃ ws, chunk "abcdefghi".toList 4 2 = Except.ok ws ∧ glue (2 : Int).toNat ws = "abcdefghi".toList :=
  chunk_lossless "abcdefghi".toList 4 2 (by decide) (by decide)

/-- C5: `chunk` fails with `InvalidParameter` exactly when `size` or
`overlap` is not positive or `overlap ≥ size`; on all valid parameters it
succeeds with the ordered window sequence. -/
theorem chunk_invalidParameter_iff (text : List Char) (size overlap : Int) :
    (chunk text size overlap = Except.error ChunkError.invalidParameter ↔
      ¬(0 < size ∧ 0 < overlap ∧ overlap < size)) ∧
    ((0 < size ∧ 0 < overlap ∧ overlap < size) →
      ∃ ws, chunk text size overlap = Except.ok ws) := by
  constructor
  · constructor
    · intro h hcond
      simp [chunk, hcond] at h
    · intro hcond
      simp [chunk, hcond]
  · intro hcond
    exact ⟨chunkWindows size.toNat (size - overlap).toNat text.length text,
      by simp [chunk, hcond]⟩

/-- Witness for C5: invalid parameters (`overlap = size`) fail, and valid
parameters succeed. -/
theorem chunk_invalidParameter_iff_witness :
    chunk "abc".toList 4 4 = Except.error ChunkError.invalidParameter ∧
      ∃ ws, chunk "abc".toList 4 2 = Except.ok ws :=
  ⟨(chunk_invalidParameter_iff "abc".toList 4 4).1.mpr (by decide),
   (chunk_invalidParameter_iff "abc".toList 4 2).2 (by decide)⟩

/-! ## Retriever lemmas -/

theorem mem_fallbackScan_provenance (cfg : ScanConfig) (corpus : List Document)
    (q : List Char) (k : Nat) (ctx : RetrievedContext)
    (h : ctx ∈ fallbackScan cfg corpus q k) : ctx.provenance = Provenance.filesystem := by
  simp only [fallbackScan, List.mem_map] at h
  obtain ⟨c, _, rfl⟩ := h
  rfl

theorem fallbackScan_length_le (cfg : ScanConfig) (corpus : List Document)
    (q : List Char) (k : Nat) : (fallbackScan cfg corpus q k).length ≤ k := by
  simp only [fallbackScan, List.length_map]
  calc (((corpus.flatMap (scanDoc cfg (tokenize q))).insertionSort scanRel).take k).length
      ≤ k := by
        rw [List.length_take]
        exact min_le_left _ _

theorem fallbackScan_sorted (cfg : ScanConfig) (corpus : List Document)
    (q : List Char) (k : Nat) :
    List.Pairwise (fun a b : RetrievedContext => b.score ≤ a.score)
      (fallbackScan cfg corpus q k) := by
  have hsorted : List.Sorted scanRel
      ((corpus.flatMap (scanDoc cfg (tokenize q))).insertionSort scanRel) :=
    List.sorted_insertionSort scanRel _
  have htake : List.Pairwise scanRel
      (((corpus.flatMap (scanDoc cfg (tokenize q))).insertionSort scanRel).take k) :=
    List.Pairwise.sublist (List.take_sublist k _) hsorted
  simp only [fallbackScan, List.pairwise_map]
  refine htake.imp ?_
  intro a b hab
  rcases hab with h | ⟨e, _⟩
  · exact_mod_cast Nat.le_of_lt h
  · exact_mod_cast Nat.le_of_eq e.symm

theorem query_ok_sorted (idx : VectorIndex) (v : List Int) (k : Nat)
    (results : List (IndexRecord × Int)) (h : query idx v k = Except.ok results) :
    results.length ≤ k ∧
      List.Pairwise (fun a b : IndexRecord × Int => b.2 ≤ a.2) results := by
  by_cases hc : idx.reachable = false ∨ idx.records = []
  · simp [query, hc] at h
  · simp only [query, if_neg hc, Except.ok.injEq] at h
    subst h
    constructor
    · simp only [List.length_map]
      rw [List.length_take]
      exact min_le_left _ _
    · have hsorted : List.Sorted vecRel
          ((idx.records.enum.map
            (fun p => ScoredRecord.mk p.1 p.2 (dot v p.2.embedding))).insertionSort vecRel) :=
        List.sorted_insertionSort vecRel _
      have htake := List.Pairwise.sublist (List.take_sublist k _) hsorted
      simp only [List.pairwise_map]
      refine htake.imp ?_
      intro a b hab
      rcases hab with hlt | ⟨e, _⟩
      · exact le_of_lt hlt
      · exact le_of_eq e.symm

/-- C3: `retrieve(question, k)` returns an ordered list of at most `k`
contexts, ordered by descending relevance score, and over an empty corpus
store and empty vector index it returns the empty list rather than an
error. -/
theorem retrieve_contract (idx : VectorIndex) (corpus : List Document)
    (cfg : ScanConfig) (embed : List Char → List Int) (q : List Char) (k : Nat) :
    (retrieve idx corpus cfg embed q k).length ≤ k ∧
      List.Pairwise (fun a b : RetrievedContext => b.score ≤ a.score)
        (retrieve idx corpus cfg embed q k) ∧
      (idx.records = [] → corpus = [] → retrieve idx corpus cfg embed q k = []) := by
  refine ⟨?_, ?_, ?_⟩
  · unfold retrieve
    rcases hq : query idx (embed q) k with e | results
    · exact fallbackScan_length_le cfg corpus q k
    · by_cases hres : results.isEmpty
      · simp only [hres, if_pos]
        exact fallbackScan_length_le cfg corpus q k
      · simp only [Bool.not_eq_true] at hres
        simp [hres]
        exact (query_ok_sorted idx (embed q) k results hq).1
  · unfold retrieve
    rcases hq : query idx (embed q) k with e | results
    · exact fallbackScan_sorted cfg corpus q k
    · by_cases hres : results.isEmpty
      · simp only [hres, if_pos]
        exact fallbackScan_sorted cfg corpus q k
      · simp only [Bool.not_eq_true] at hres
        simp only [hres, Bool.false_eq_true, if_false, List.pairwise_map]
        exact (query_ok_sorted idx (embed q) k results hq).2
  · intro hidx hcorp
    subst hcorp
    have hq : query idx (embed q) k = Except.error IndexError.indexUnavailable := by
      simp [query, hidx]
    simp [retrieve, hq, fallbackScan, scanDoc]

/-- Witness for C3 at an empty index and empty corpus. -/
theorem retrieve_contract_witness :
    (retrieve ⟨[], true⟩ [] democfg (fun _ => []) "binary search".toList 3).length ≤ 3 ∧
      retrieve ⟨[], true⟩ [] democfg (fun _ => []) "binary search".toList 3 = [] := by
  have h := retrieve_contract ⟨[], true⟩ [] democfg (fun _ => []) "binary search".toList 3
  exact ⟨h.1, h.2.2 rfl rfl⟩

/-- C2: with an empty or unreachable vector index, `retrieve` returns only
`filesystem`-tagged contexts; an equal-content chunk never outscores one from
a document whose filename matches a query token; and on the concrete corpus
of the spec's fallback scenario (three equal-content documents, one named
`binary_search.txt`), `retrieve("binary search", 3)` ranks the
filename-matching document first, breaks the remaining score tie by document
path, and orders equal-scored chunks of a single document by chunk index. -/
theorem retrieve_fallback_ranking :
    (∀ (idx : VectorIndex) (corpus : List Document) (cfg : ScanConfig)
        (embed : List Char → List Int) (q : List Char) (k : Nat),
      idx.reachable = false ∨ idx.records = [] →
        ∀ ctx ∈ retrieve idx corpus cfg embed q k, ctx.provenance = Provenance.filesystem) ∧
    (∀ (qts : List (List Char)) (path1 path2 ctext : List Char),
      filenameMatch qts path2 = false →
        chunkScore qts path2 ctext ≤ chunkScore qts path1 ctext) ∧
    (retrieve ⟨[], true⟩ democorpus democfg (fun _ => []) "binary search".toList 3).map
        (fun c => (c.source, c.score, c.provenance)) =
      [("data/binary_search.txt".toList, 7, Provenance.filesystem),
       ("data/alpha.txt".toList, 2, Provenance.filesystem),
       ("data/notes.txt".toList, 2, Provenance.filesystem)] ∧
    (retrieve ⟨[], true⟩ [⟨"data/b.txt".toList, demoText2⟩] ⟨15, 14⟩ (fun _ => [])
        "binary search".toList 3).map (fun c => c.text) =
      ["binary search. ".toList, " binary search".toList] := by
  refine ⟨?_, ?_, by decide, by decide⟩
  · intro idx corpus cfg embed q k h ctx hctx
    have hq : query idx (embed q) k = Except.error IndexError.indexUnavailable := by
      simp only [query, if_pos h]
    rw [retrieve, hq] at hctx
    exact mem_fallbackScan_provenance cfg corpus q k ctx hctx
  · intro qts path1 path2 ctext h
    unfold chunkScore
    rw [h]
    have h0 : (if (false : Bool) = true then filenameBonus else 0) = 0 := rfl
    rw [h0, Nat.add_zero]
    exact Nat.le_add_right _ _

/-- Witness for C2: the first conjunct applied to the concrete empty-index
scenario, on the top-ranked context. -/
theorem retrieve_fallback_ranking_witness :
    (⟨demoText, "data/binary_search.txt".toList, 7, Provenance.filesystem⟩ :
        RetrievedContext).provenance = Provenance.filesystem :=
  retrieve_fallback_ranking.1 ⟨[], true⟩ democorpus democfg (fun _ => [])
    "binary search".toList 3 (Or.inr rfl)
    ⟨demoText, "data/binary_search.txt".toList, 7, Provenance.filesystem⟩ (by decide)

/-! ## Ingestion: idempotence and duplicate-freedom -/

theorem upsertOne_self (st : List IndexRecord) (r : IndexRecord) :
    keyMem (upsertOne st r) r ∧ keyUniq (upsertOne st r) r := by
  unfold upsertOne
  by_cases hmem : ∃ s ∈ st, rkey s = rkey r
  · have hany : st.any (fun s => rkey s = rkey r) = true := by
      simp only [List.any_eq_true, decide_eq_true_eq]
      exact hmem
    rw [if_pos hany]
    obtain ⟨s0, hs0, hk0⟩ := hmem
    constructor
    · refine ⟨r, ?_, rfl⟩
      rw [List.mem_map]
      exact ⟨s0, hs0, by rw [if_pos hk0]⟩
    · intro x hx hk
      rw [List.mem_map] at hx
      obtain ⟨s1, _, rfl⟩ := hx
      by_cases h1 : rkey s1 = rkey r
      · rw [if_pos h1]
      · rw [if_neg h1] at hk ⊢
        exact absurd hk h1
  · have hany : st.any (fun s => rkey s = rkey r) = false := by
      simp only [List.any_eq_false, decide_eq_true_eq]
      intro s hs hk
      exact hmem ⟨s, hs, hk⟩
    rw [hany]
    simp only [Bool.false_eq_true, if_false]
    constructor
    · exact ⟨r, by simp, rfl⟩
    · intro x hx hk
      rcases List.mem_append.mp hx with h | h
      · exact absurd ⟨x, h, hk⟩ hmem
      · simpa using h

theorem upsertOne_other (st : List IndexRecord) (r q : IndexRecord)
    (hne : rkey q ≠ rkey r) :
    (keyMem st q → keyMem (upsertOne st r) q) ∧
      (keyUniq st q → keyUniq (upsertOne st r) q) := by
  unfold upsertOne
  by_cases hany : st.any (fun s => rkey s = rkey r) = true
  · rw [if_pos hany]
    constructor
    · rintro ⟨x, hx, hk⟩
      refine ⟨x, ?_, hk⟩
      rw [List.mem_map]
      refine ⟨x, hx, ?_⟩
      rw [if_neg (by rw [hk]; exact hne)]
    · intro hu x hx hk
      rw [List.mem_map] at hx
      obtain ⟨s1, hs1, rfl⟩ := hx
      by_cases h1 : rkey s1 = rkey r
      · rw [if_pos h1] at hk
        exact absurd hk.symm hne
      · rw [if_neg h1] at hk ⊢
        exact hu s1 hs1 hk
  · rw [if_neg hany]
    constructor
    · rintro ⟨x, hx, hk⟩
      exact ⟨x, List.mem_append.mpr (Or.inl hx), hk⟩
    · intro hu x hx hk
      rcases List.mem_append.mp hx with h | h
      · exact hu x h hk
      · have : x = r := by simpa using h
        subst this
        exact absurd hk.symm hne

theorem upsert_other (rs : List IndexRecord) :
    ∀ (st : List IndexRecord) (q : IndexRecord), (∀ x ∈ rs, rkey x ≠ rkey q) →
      keyMem st q → keyUniq st q → keyMem (upsert st rs) q ∧ keyUniq (upsert st rs) q := by
  induction rs with
  | nil => intro st q _ hm hu; exact ⟨hm, hu⟩
  | cons r rs ih =>
    intro st q hne hm hu
    have hner : rkey q ≠ rkey r := fun h => hne r (by simp) h.symm
    have h1 := upsertOne_other st r q hner
    exact ih (upsertOne st r) q (fun x hx => hne x (by simp [hx])) (h1.1 hm) (h1.2 hu)

theorem upsert_establish (rs : List IndexRecord) :
    ∀ (st : List IndexRecord),
      List.Pairwise (fun a b => rkey a ≠ rkey b) rs →
      ∀ r ∈ rs, keyMem (upsert st rs) r ∧ keyUniq (upsert st rs) r := by
  induction rs with
  | nil => intro st _ r hr; simp at hr
  | cons r0 rs ih =>
    intro st hpw r hr
    rw [List.pairwise_cons] at hpw
    rcases List.mem_cons.mp hr with rfl | hr
    · have hself := upsertOne_self st r
      exact upsert_other rs (upsertOne st r) r
        (fun x hx h => hpw.1 x hx h.symm) hself.1 hself.2
    · exact ih (upsertOne st r0) hpw.2 r hr

theorem upsertOne_id (st : List IndexRecord) (r : IndexRecord)
    (hm : keyMem st r) (hu : keyUniq st r) : upsertOne st r = st := by
  unfold upsertOne
  have hany : st.any (fun s => rkey s = rkey r) = true := by
    simp only [List.any_eq_true, decide_eq_true_eq]
    exact hm
  rw [if_pos hany]
  have : ∀ s ∈ st, (if rkey s = rkey r then r else s) = s := by
    intro s hs
    by_cases h : rkey s = rkey r
    · rw [if_pos h, hu s hs h]
    · rw [if_neg h]
  rw [List.map_congr_left this]
  simp

theorem upsert_id (rs : List IndexRecord) :
    ∀ (st : List IndexRecord), (∀ r ∈ rs, keyMem st r ∧ keyUniq st r) →
      upsert st rs = st := by
  induction rs with
  | nil => intro st _; rfl
  | cons r rs ih =>
    intro st h
    have h0 := h r (by simp)
    have hid : upsertOne st r = st := upsertOne_id st r h0.1 h0.2
    show upsert (upsertOne st r) rs = st
    rw [hid]
    exact ih st (fun x hx => h x (by simp [hx]))

theorem recsFrom_mem (embed : List Char → Option (List Int)) (path : List Char) :
    ∀ (i : Nat) (cs : List (List Char)) (r : IndexRecord),
      r ∈ recsFrom embed path i cs → r.docId = path ∧ i ≤ r.chunkIdx := by
  intro i cs
  induction cs generalizing i with
  | nil => intro r hr; simp [recsFrom] at hr
  | cons c cs ih =>
    intro r hr
    unfold recsFrom at hr
    rcases hv : embed c with _ | v
    · rw [hv] at hr
      obtain ⟨h1, h2⟩ := ih (i + 1) r hr
      exact ⟨h1, by omega⟩
    · rw [hv] at hr
      rcases List.mem_cons.mp hr with rfl | hr
      · exact ⟨rfl, le_refl _⟩
      · obtain ⟨h1, h2⟩ := ih (i + 1) r hr
        exact ⟨h1, by omega⟩

theorem recsFrom_pairwise (embed : List Char → Option (List Int)) (path : List Char) :
    ∀ (i : Nat) (cs : List (List Char)),
      List.Pairwise (fun a b => rkey a ≠ rkey b) (recsFrom embed path i cs) := by
  intro i cs
  induction cs generalizing i with
  | nil => simp [recsFrom]
  | cons c cs ih =>
    unfold recsFrom
    rcases hv : embed c with _ | v
    · exact ih (i + 1)
    · rw [List.pairwise_cons]
      refine ⟨?_, ih (i + 1)⟩
      intro b hb hk
      have := (recsFrom_mem embed path (i + 1) cs b hb).2
      have hidx : b.chunkIdx = i := congrArg Prod.snd hk.symm
      omega

theorem ingestRecords_docId (cfg : ScanConfig) (embed : List Char → Option (List Int))
    (corpus : List Document) (r : IndexRecord) (hr : r ∈ ingestRecords cfg embed corpus) :
    r.docId ∈ corpus.map Document.path := by
  unfold ingestRecords at hr
  rw [List.mem_flatMap] at hr
  obtain ⟨d, hd, hrd⟩ := hr
  rw [List.mem_map]
  exact ⟨d, hd, ((recsFrom_mem embed d.path 0 _ r hrd).1).symm⟩

theorem ingestRecords_pairwise (cfg : ScanConfig) (embed : List Char → Option (List Int))
    (corpus : List Document) (h : (corpus.map Document.path).Nodup) :
    List.Pairwise (fun a b => rkey a ≠ rkey b) (ingestRecords cfg embed corpus) := by
  unfold ingestRecords
  rw [List.pairwise_flatMap]
  constructor
  · intro d _
    exact recsFrom_pairwise embed d.path 0 _
  · have hpw : List.Pairwise (fun d1 d2 : Document => d1.path ≠ d2.path) corpus := by
      rw [← List.pairwise_map (f := Document.path)]
      exact h
    refine hpw.imp ?_
    intro d1 d2 hne x hx y hy hk
    have h1 := (recsFrom_mem embed d1.path 0 _ x hx).1
    have h2 := (recsFrom_mem embed d2.path 0 _ y hy).1
    have : x.docId = y.docId := congrArg Prod.fst hk
    rw [h1, h2] at this
    exact hne this

theorem upsertOne_keys_nodup (st : List IndexRecord) (r : IndexRecord)
    (h : (st.map rkey).Nodup) : ((upsertOne st r).map rkey).Nodup := by
  unfold upsertOne
  by_cases hany : st.any (fun s => rkey s = rkey r) = true
  · rw [if_pos hany]
    have : (st.map (fun s => if rkey s = rkey r then r else s)).map rkey = st.map rkey := by
      rw [List.map_map]
      refine List.map_congr_left ?_
      intro s _
      simp only [Function.comp]
      by_cases hk : rkey s = rkey r
      · rw [if_pos hk, hk]
      · rw [if_neg hk]
    rw [this]
    exact h
  · rw [if_neg hany]
    rw [List.map_append]
    rw [List.nodup_append]
    refine ⟨h, List.nodup_singleton _, ?_⟩
    intro a ha hb
    simp only [List.map_cons, List.map_nil, List.mem_singleton] at hb
    subst hb
    rw [List.mem_map] at ha
    obtain ⟨s, hs, hk⟩ := ha
    have hc : st.any (fun s => rkey s = rkey r) = true := by
      simp only [List.any_eq_true, decide_eq_true_eq]
      exact ⟨s, hs, hk⟩
    exact hany hc

theorem upsert_keys_nodup (rs : List IndexRecord) :
    ∀ (st : List IndexRecord), (st.map rkey).Nodup → ((upsert st rs).map rkey).Nodup := by
  induction rs with
  | nil => intro st h; exact h
  | cons r rs ih =>
    intro st h
    exact ih (upsertOne st r) (upsertOne_keys_nodup st r h)

/-- C6: ingestion is idempotent on an unchanged corpus (with distinct
document paths): a second run leaves the vector index state exactly as the
first run left it, and the state after one run holds no two records with the
same `(document id, chunk index)` upsert key. -/
theorem ingest_idempotent (cfg : ScanConfig) (embed : List Char → Option (List Int))
    (corpus : List Document) :
    ((corpus.map Document.path).Nodup →
      ingest cfg embed corpus (ingest cfg embed corpus []) = ingest cfg embed corpus []) ∧
    ((ingest cfg embed corpus []).map rkey).Nodup := by
  constructor
  · intro h
    have hpw := ingestRecords_pairwise cfg embed corpus h
    unfold ingest
    exact upsert_id (ingestRecords cfg embed corpus) _
      (upsert_establish (ingestRecords cfg embed corpus) [] hpw)
  · exact upsert_keys_nodup (ingestRecords cfg embed corpus) [] (by simp)

/-- Witness for C6 on a two-document corpus with a total embedding. -/
theorem ingest_idempotent_witness :
    ingest ⟨8, 6⟩ (fun c => some [(c.length : Int)])
        [⟨"a.txt".toList, "hello world".toList⟩, ⟨"b.txt".toList, "two pointers".toList⟩]
        (ingest ⟨8, 6⟩ (fun c => some [(c.length : Int)])
          [⟨"a.txt".toList, "hello world".toList⟩, ⟨"b.txt".toList, "two pointers".toList⟩] []) =
      ingest ⟨8, 6⟩ (fun c => some [(c.length : Int)])
        [⟨"a.txt".toList, "hello world".toList⟩, ⟨"b.txt".toList, "two pointers".toList⟩] [] :=
  (ingest_idempotent ⟨8, 6⟩ (fun c => some [(c.length : Int)])
    [⟨"a.txt".toList, "hello world".toList⟩, ⟨"b.txt".toList, "two pointers".toList⟩]).1
    (by decide)

/-! ## Answer composer: degradation, never an exception -/

/-- C1: `compose` is a total function (no exception can reach the caller) and
degrades deterministically: with no contexts it returns the fixed
"no information available" message; on any provider failure (quota, network,
timeout) it returns the local template built purely from the context texts;
both fallback paths are tagged `local-fallback` and produce a non-empty
answer; on provider success the provider text is returned verbatim with
provenance `remote`, so the answer is non-empty for every provider whose
successful outputs are non-empty. -/
theorem compose_total_fallback (gen : List Char → GenResult) (q : List Char)
    (ctxs : List RetrievedContext) :
    (ctxs = [] →
      compose gen q ctxs = ⟨noInfoMessage, ctxs, GenProvenance.localFallback⟩ ∧
        noInfoMessage ≠ []) ∧
    (ctxs ≠ [] → genFailed (gen (buildPrompt q ctxs)) = true →
      compose gen q ctxs = ⟨localTemplate ctxs, ctxs, GenProvenance.localFallback⟩ ∧
        localTemplate ctxs ≠ []) ∧
    (∀ t, ctxs ≠ [] → gen (buildPrompt q ctxs) = GenResult.ok t →
      compose gen q ctxs = ⟨t, ctxs, GenProvenance.remote⟩) ∧
    ((∀ t, gen (buildPrompt q ctxs) = GenResult.ok t → t ≠ []) →
      (compose gen q ctxs).answer ≠ []) := by
  refine ⟨?_, ?_, ?_, ?_⟩
  · intro h
    subst h
    exact ⟨rfl, by decide⟩
  · intro h hfail
    have hne : ctxs.isEmpty = false := by
      cases ctxs with
      | nil => exact absurd rfl h
      | cons c cs => rfl
    constructor
    · unfold compose
      rw [hne]
      simp only [Bool.false_eq_true, if_false]
      rcases hg : gen (buildPrompt q ctxs) with t | _ | _ | _
      · rw [hg] at hfail
        simp [genFailed] at hfail
      · rfl
      · rfl
      · rfl
    · unfold localTemplate
      simp
  · intro t h hg
    have hne : ctxs.isEmpty = false := by
      cases ctxs with
      | nil => exact absurd rfl h
      | cons c cs => rfl
    unfold compose
    rw [hne, hg]
    simp
  · intro hok
    unfold compose
    rcases hc : ctxs.isEmpty with _ | _
    · simp only [Bool.false_eq_true, if_false]
      rcases hg : gen (buildPrompt q ctxs) with t | _ | _ | _
      · exact hok t hg
      · unfold localTemplate; simp
      · unfold localTemplate; simp
      · unfold localTemplate; simp
    · simp only [if_true]
      decide

/-- Witness for C1: a provider forced to fail with a quota error yields the
local template over one context, and empty contexts yield the fixed
message. -/
theorem compose_total_fallback_witness :
    compose (fun _ => GenResult.quotaExceeded) "q".toList
        [⟨"two pointers".toList, "data/two_pointers.txt".toList, 2, Provenance.filesystem⟩] =
      ⟨localTemplate [⟨"two pointers".toList, "data/two_pointers.txt".toList, 2,
          Provenance.filesystem⟩],
        [⟨"two pointers".toList, "data/two_pointers.txt".toList, 2, Provenance.filesystem⟩],
        GenProvenance.localFallback⟩ ∧
    compose (fun _ => GenResult.quotaExceeded) "q".toList [] =
      ⟨noInfoMessage, [], GenProvenance.localFallback⟩ :=
  ⟨((compose_total_fallback (fun _ => GenResult.quotaExceeded) "q".toList
      [⟨"two pointers".toList, "data/two_pointers.txt".toList, 2,
        Provenance.filesystem⟩]).2.1 (by decide) rfl).1,
   ((compose_total_fallback (fun _ => GenResult.quotaExceeded) "q".toList []).1 rfl).1⟩

/-! ## User-agnosticism of the core, constant user id in the UI -/

/-- C8: the pipeline's result does not depend on `user_id` — the core takes
only the question — and every request the UI posts carries the constant
`user_id` "Charan", whatever the user typed. -/
theorem core_user_agnostic :
    (∀ (env : Env) (u1 u2 : String) (q : List Char),
      askEndpoint env u1 q = askEndpoint env u2 q) ∧
    (∀ (s : UiState) (net : NetOutcome) (r : AskRequest),
      (ask s net).2 = some r → r.user_id = "Charan") := by
  constructor
  · intro env u1 u2 q
    rfl
  · intro s net r h
    unfold ask at h
    by_cases hb : isBlank s.input = true
    · rw [if_pos hb] at h
      simp at h
    · rw [if_neg hb] at h
      cases net with
      | success ans =>
        simp only [Option.some.injEq] at h
        rw [← h]
      | failure detail message =>
        simp only [Option.some.injEq] at h
        rw [← h]

/-- Witness for C8: a concrete submission posts `user_id = "Charan"`. -/
theorem core_user_agnostic_witness :
    (⟨"http://localhost:8000/ask", "Charan", "hi"⟩ : AskRequest).user_id = "Charan" :=
  core_user_agnostic.2 ⟨"hi", [], false, none⟩ (NetOutcome.success (some "ok"))
    ⟨"http://localhost:8000/ask", "Charan", "hi"⟩ (by decide)

/-! ## Chat UI behaviour -/

/-- C7: for every non-blank input, the handler posts exactly one request to
`POST /ask` whose body carries the typed string as `question` and a string
`user_id`, and on a successful response carrying an answer it appends exactly
one assistant message whose content is that answer string verbatim. -/
theorem ask_posts_and_renders (s : UiState) (a : String)
    (h : isBlank s.input = false) :
    ask s (NetOutcome.success (some a)) =
      (⟨"", s.messages ++ [⟨Role.user, s.input⟩, ⟨Role.assistant, a⟩], false, none⟩,
       some ⟨"http://localhost:8000/ask", "Charan", s.input⟩) := by
  unfold ask
  rw [if_neg (by rw [h]; exact Bool.false_ne_true)]
  rfl

/-- Witness for C7 at a concrete state and answer. -/
theorem ask_posts_and_renders_witness :
    ask ⟨"Explain Binary technique with examples.", [], false, none⟩
        (NetOutcome.success (some "Use two indices.")) =
      (⟨"", [⟨Role.user, "Explain Binary technique with examples."⟩,
             ⟨Role.assistant, "Use two indices."⟩], false, none⟩,
       some ⟨"http://localhost:8000/ask", "Charan",
         "Explain Binary technique with examples."⟩) :=
  ask_posts_and_renders ⟨"Explain Binary technique with examples.", [], false, none⟩
    "Use two indices." (by decide)

/-- C9: a blank (empty or all-whitespace) input makes the handler return
immediately: no request is posted and the state — messages, input, error,
loading — is exactly unchanged. -/
theorem ask_blank_noop (s : UiState) (net : NetOutcome)
    (h : isBlank s.input = true) : ask s net = (s, none) := by
  unfold ask
  rw [if_pos h]

/-- Witness for C9 at a whitespace-only input. -/
theorem ask_blank_noop_witness :
    ask ⟨"   ", [⟨Role.user, "old"⟩], false, some "stale"⟩
        (NetOutcome.success (some "unused")) =
      (⟨"   ", [⟨Role.user, "old"⟩], false, some "stale"⟩, none) :=
  ask_blank_noop ⟨"   ", [⟨Role.user, "old"⟩], false, some "stale"⟩
    (NetOutcome.success (some "unused")) (by decide)

/-- Counterexample for C10 as stated: with a present-but-empty `detail`
(`detail = some ""`) and `message = some "boom"`, the handler sets the error
to "boom", not to the present `detail` field. -/
theorem ask_error_detail_counterexample :
    (ask ⟨"hi", [], false, none⟩ (NetOutcome.failure (some "") (some "boom"))).1.error =
        some "boom" ∧
      (ask ⟨"hi", [], false, none⟩
          (NetOutcome.failure (some "") (some "boom"))).1.error ≠ some "" := by
  decide

/-- C10 (amended): on any failure of the request, the handler appends no
assistant message — the just-appended user message remains — clears the
input, resets `loading`, and sets the error text to the server's `detail`
field if it is a non-empty string, else the exception's `message` if it is a
non-empty string, else the literal "Request failed"; `loading` is reset to
`false` on the success outcome as well. -/
theorem ask_failure_state (s : UiState) (detail message : Option String)
    (ans : Option String) (h : isBlank s.input = false) :
    (ask s (NetOutcome.failure detail message)).1 =
      ⟨"", s.messages ++ [⟨Role.user, s.input⟩], false,
        some (errorText detail message)⟩ ∧
    (∀ d, detail = some d → d ≠ "" → errorText detail message = d) ∧
    (∀ m, (detail = none ∨ detail = some "") → message = some m → m ≠ "" →
      errorText detail message = m) ∧
    ((detail = none ∨ detail = some "") → (message = none ∨ message = some "") →
      errorText detail message = "Request failed") ∧
    (ask s (NetOutcome.success ans)).1.loading = false := by
  refine ⟨?_, ?_, ?_, ?_, ?_⟩
  · unfold ask
    rw [if_neg (by rw [h]; exact Bool.false_ne_true)]
  · intro d hd hne
    subst hd
    simp [errorText, jsTruthy, hne]
  · intro m hd hm hne
    subst hm
    rcases hd with rfl | rfl
    · simp [errorText, jsTruthy, hne]
    · simp [errorText, jsTruthy, hne]
  · intro hd hm
    rcases hd with rfl | rfl <;> rcases hm with rfl | rfl <;> rfl
  · unfold ask
    rw [if_neg (by rw [h]; exact Bool.false_ne_true)]

/-- Witness for C10 (amended) at a concrete failing request. -/
theorem ask_failure_state_witness :
    (ask ⟨"hi", [⟨Role.user, "old"⟩], false, none⟩
        (NetOutcome.failure none (some "network down"))).1 =
      ⟨"", [⟨Role.user, "old"⟩, ⟨Role.user, "hi"⟩], false, some "network down"⟩ := by
  have h := ask_failure_state ⟨"hi", [⟨Role.user, "old"⟩], false, none⟩ none
    (some "network down") none (by decide)
  have he : errorText none (some "network down") = "network down" :=
    h.2.2.1 "network down" (Or.inl rfl) rfl (by decide)
  rw [h.1, he]
  rfl

end DsaSensei
